import Mathlib

/-!
Shallow embedding of the jutvolunteers bot (src/bot.py): the persistent
tables (`volunteers`, `blacklist`), the violation-ledger operations, the
pagination renderer, and the conversation router, together with proofs of
the specification's claims about them.

Modelling conventions:
* A PostgreSQL row becomes a structure; a table becomes a `List` of rows
  plus the `SERIAL` counter `nextId` (ids are handed out in increasing
  order and never reused, as a PostgreSQL sequence does).
* Each SQL statement becomes a pure function `DB → DB`; a statement that
  also produces chat output returns `DB × List Out`.
* The `blacklist.added TIMESTAMP` column is wall-clock metadata with no
  behavioural role in bot.py and is omitted.
* Chat output (`message.answer` / `edit_text`) is modelled by the
  inductive `Out`, one constructor per distinct response of bot.py,
  carrying the data interpolated into the response text.
-/

namespace JutBot

/-- A row of the `volunteers` table (bot.py lines 35-44): id SERIAL,
full_name, contacts, status (default `"Active"`), lateness_count and
warnings_count (default 0). Ids are `Int` because the router obtains
candidate ids from Python `int(...)`, which can be negative. -/
structure Volunteer where
  id : Int
  full_name : String
  contacts : String
  status : String
  lateness_count : Nat
  warnings_count : Nat
deriving DecidableEq, Repr

/-- A row of the `blacklist` table (bot.py lines 46-54): full_name
(UNIQUE) and reason. The `added` timestamp is omitted (see module
comment). -/
structure BlacklistEntry where
  full_name : String
  reason : String
deriving DecidableEq, Repr

/-- The persistent store: both tables plus the `SERIAL` sequence value
for `volunteers.id`. -/
structure DB where
  volunteers : List Volunteer
  blacklist : List BlacklistEntry
  nextId : Int
deriving DecidableEq, Repr

/-- A fresh database: empty tables, sequence at 1. -/
def initDB : DB := { volunteers := [], blacklist := [], nextId := 1 }

/-- Chat responses emitted by bot.py, one constructor per distinct
`message.answer` / `edit_text` call site, carrying the interpolated
data. -/
inductive PageView (α : Type) where
  | emptyList
  | page (rows : List α) (hasPrev hasNext : Bool)
deriving DecidableEq, Repr

inductive Out where
  | notFound
  | recorded (name : String) (late warn total : Nat)
  | promoted (name : String) (total : Nat)
  | directBl (name reason : String)
  | added (name : String)
  | dupVolunteer
  | badNumber
  | mainMenu
  | manageMenu
  | askLatenessId
  | askWarningId
  | askBlacklistId
  | askReason
  | askName
  | askPhone
  | askEditId
  | chooseField
  | askNewValue (field : String)
  | updated (field value : String)
  | askSearch
  | searchResults (rows : List Volunteer)
  | noResults
  | askDeleteId
  | confirmDelete (name : String)
  | deletedMsg
  | deleteCancelled
  | notFoundDelete
  | stats (total lates warns bl : Nat)
  | volunteersView (v : PageView Volunteer)
  | blacklistView (v : PageView BlacklistEntry)
deriving DecidableEq, Repr

/-! ### SQL primitives over the embedded tables -/

/-- `SELECT ... FROM volunteers WHERE id = $1` via `fetchrow`: the first
row with the given id (row order models physical order; ids are unique
in every reachable database). -/
def fetchVolunteer (db : DB) (vid : Int) : Option Volunteer :=
  db.volunteers.find? (fun v => v.id == vid)

/-- `UPDATE volunteers SET ... WHERE id = $1`: apply `f` to every row
whose id matches. -/
def updateWhere (vid : Int) (f : Volunteer → Volunteer) (l : List Volunteer) :
    List Volunteer :=
  l.map (fun v => if v.id == vid then f v else v)

/-- `UPDATE volunteers SET lateness_count = lateness_count + 1 WHERE id=$1`
(bot.py line 180). -/
def incLateness (vid : Int) (db : DB) : DB :=
  { db with volunteers :=
      (updateWhere vid (fun v => { v with lateness_count := v.lateness_count + 1 })
        db.volunteers) }

/-- `UPDATE volunteers SET warnings_count = warnings_count + 1 WHERE id=$1`
(bot.py line 189). -/
def incWarnings (vid : Int) (db : DB) : DB :=
  { db with volunteers :=
      (updateWhere vid (fun v => { v with warnings_count := v.warnings_count + 1 })
        db.volunteers) }

/-- `UPDATE volunteers SET status = $s WHERE id = $1` (bot.py lines 164,
204). -/
def setStatus (vid : Int) (st : String) (db : DB) : DB :=
  { db with volunteers :=
      (updateWhere vid (fun v => { v with status := st }) db.volunteers) }

/-- `INSERT INTO blacklist (full_name, reason) VALUES ($1,$2)
ON CONFLICT DO NOTHING` against the `UNIQUE(full_name)` constraint
(bot.py lines 165-168, 205-208): append unless a row with this
full_name already exists. -/
def upsertBlacklist (name reason : String) (l : List BlacklistEntry) :
    List BlacklistEntry :=
  if l.any (fun e => e.full_name == name) then l else l ++ [⟨name, reason⟩]

/-- `DELETE FROM volunteers WHERE id = $1` where the parameter may be
SQL NULL (`data.get("volunteer_id")` can be `None`, bot.py line 316):
`id = NULL` matches no row, so nothing is deleted. -/
def deleteMatching (oid : Option Int) (l : List Volunteer) : List Volunteer :=
  l.filter (fun v => !(some v.id == oid))

/-! ### Violation ledger (bot.py lines 136-209) -/

/-- The reason string stored by automatic promotion (bot.py line 167):
`f"{total_violations} нарушений (опоздания + замечания)"`. -/
def reasonText (total : Nat) : String :=
  toString total ++ " нарушений (опоздания + замечания)"

/-- `check_and_blacklist` (bot.py lines 151-174): re-read the row; if
total violations reach 3 and the row is not already Blacklisted, set
status and upsert the blacklist entry, announcing the promotion;
otherwise only announce the recorded violation. -/
def check_and_blacklist (vid : Int) (db : DB) : DB × List Out :=
  match fetchVolunteer db vid with
  | none => (db, [.notFound])
  | some row =>
    let total := row.lateness_count + row.warnings_count
    if 3 ≤ total ∧ row.status ≠ "Blacklisted" then
      let db1 := setStatus vid "Blacklisted" db
      let db2 := { db1 with
        blacklist := upsertBlacklist row.full_name (reasonText total) db1.blacklist }
      (db2, [.promoted row.full_name total])
    else
      (db, [.recorded row.full_name row.lateness_count row.warnings_count total])

/-- `add_lateness` (bot.py lines 177-183): increment, then run the
promotion check. The two statements run in separate connection
acquisitions. -/
def add_lateness (vid : Int) (db : DB) : DB × List Out :=
  check_and_blacklist vid (incLateness vid db)

/-- `add_warning` (bot.py lines 186-192). -/
def add_warning (vid : Int) (db : DB) : DB × List Out :=
  check_and_blacklist vid (incWarnings vid db)

/-- `add_direct_blacklist` (bot.py lines 195-209): not-found check, then
unconditional status update and idempotent blacklist upsert with the
caller's reason. -/
def add_direct_blacklist (vid : Int) (reason : String) (db : DB) : DB × List Out :=
  match fetchVolunteer db vid with
  | none => (db, [.notFound])
  | some row =>
    let db1 := setStatus vid "Blacklisted" db
    let db2 := { db1 with
      blacklist := upsertBlacklist row.full_name reason db1.blacklist }
    (db2, [.directBl row.full_name reason])

/-- `add_volunteer` (bot.py lines 137-148): reject an exact
(full_name, contacts) duplicate with ValueError, otherwise insert with
default status Active and zero counters; `SERIAL` assigns `nextId`. -/
def add_volunteer (full_name contacts : String) (db : DB) : DB × List Out :=
  if db.volunteers.any (fun v => v.full_name == full_name && v.contacts == contacts) then
    (db, [.dupVolunteer])
  else
    ({ db with
        volunteers := db.volunteers ++
          [⟨db.nextId, full_name, contacts, "Active", 0, 0⟩],
        nextId := db.nextId + 1 },
     [.added full_name])

/-! ### Pagination (bot.py lines 217-250) -/

/-- `PAGE_SIZE = 5` (bot.py line 217). -/
def PAGE_SIZE : Nat := 5

/-- `total_pages = (len(rows) + PAGE_SIZE - 1) // PAGE_SIZE`
(bot.py line 238). -/
def totalPages (n : Nat) : Nat := (n + PAGE_SIZE - 1) / PAGE_SIZE

/-- `show_records` (bot.py lines 233-250) together with
`pagination_markup` (lines 220-230): empty input renders the distinct
empty message (with the main menu, no navigation buttons); otherwise
the Python slice `rows[page*PAGE_SIZE : page*PAGE_SIZE+PAGE_SIZE]` is
rendered, with a back button iff `page > 0` and a forward button iff
`page < total_pages - 1`. -/
def show_records {α : Type} (rows : List α) (page : Nat) : PageView α :=
  if rows.isEmpty then .emptyList
  else
    .page ((rows.drop (page * PAGE_SIZE)).take PAGE_SIZE)
      (decide (0 < page)) (decide (page < totalPages rows.length - 1))

/-! ### Session store (aiogram FSMContext over MemoryStorage) -/

/-- The conversation states of bot.py's `StatesGroup`s (lines 57-81),
plus Idle (aiogram's `state == None`). Names follow the spec's state
machine (§4.2), each matching one source state:
`LatenessStates.waiting_for_id` = `awaitingLatenessId`, etc. -/
inductive ConvState where
  | idle
  | awaitingLatenessId
  | awaitingWarningId
  | awaitingBlacklistId
  | awaitingBlacklistReason
  | awaitingAddName
  | awaitingAddContact
  | awaitingEditId
  | awaitingEditField
  | awaitingEditValue
  | awaitingSearchQuery
  | awaitingDeleteId
  | awaitingDeleteConfirm
deriving DecidableEq, Repr

/-- The scratch keys bot.py ever writes with `state.update_data`:
`volunteer_id` (lines 381, 416, 467), `field` (line 328), `full_name`
(line 396); absent key = `None` from `data.get`. -/
structure Scratch where
  volunteer_id : Option Int := none
  field : Option String := none
  full_name : Option String := none
deriving DecidableEq, Repr

/-- Scratch with no keys set. -/
def emptyScratch : Scratch := {}

/-- One principal's session: current state plus scratch data.
`state.clear()` resets to `idleSession`. -/
structure Session where
  st : ConvState
  data : Scratch
deriving DecidableEq, Repr

def idleSession : Session := ⟨.idle, emptyScratch⟩

/-! ### Conversation router

The text primitives the router needs (strip, integer parsing, prefix
test, replace, split, case-insensitive containment) are implemented
structurally over `List Char` so every router computation reduces in
the kernel. -/

/-- Does `s` start with `pat`? -/
def startsWithChars : List Char → List Char → Bool
  | [], _ => true
  | _ :: _, [] => false
  | p :: ps, c :: cs => p == c && startsWithChars ps cs

/-- Python `str.strip()`: surrounding whitespace removed. -/
def trimChars (l : List Char) : List Char :=
  ((l.dropWhile Char.isWhitespace).reverse.dropWhile Char.isWhitespace).reverse

/-- Decimal value of a digit run. -/
def digitsToNat (l : List Char) : Nat :=
  l.foldl (fun a c => a * 10 + (c.toNat - '0'.toNat)) 0

/-- Python `int(text)`: strips surrounding whitespace, then parses an
optionally signed decimal integer; anything else raises ValueError
(modelled as `none`). Digit-group underscores, accepted by Python 3,
are not modelled. -/
def pyInt (s : String) : Option Int :=
  match trimChars s.data with
  | [] => none
  | c :: cs =>
    let signDigits : Int × List Char :=
      if c = '-' then (-1, cs)
      else if c = '+' then (1, cs) else (1, c :: cs)
    if signDigits.2 ≠ [] ∧ signDigits.2.all Char.isDigit then
      some (signDigits.1 * Int.ofNat (digitsToNat signDigits.2))
    else none

/-- Remove every occurrence of the (non-empty) pattern from the text,
as Python `str.replace(pat, "")` does; the fuel argument is the text
length. -/
def removeAllAux (pat : List Char) : Nat → List Char → List Char
  | _, [] => []
  | 0, s => s
  | Nat.succ n, c :: cs =>
    if startsWithChars pat (c :: cs) then
      removeAllAux pat n (List.drop (pat.length - 1) cs)
    else c :: removeAllAux pat n cs

/-- Python `s.replace(pat, "")` for a non-empty pattern. -/
def removeAll (pat s : String) : String :=
  ⟨removeAllAux pat.data s.data.length s.data⟩

/-- Split the text at the first occurrence of the (non-empty)
separator: `some (before, after)`, or `none` when the separator does
not occur; the fuel argument is the text length. -/
def breakOnAux (sep : List Char) : Nat → List Char →
    Option (List Char × List Char)
  | _, [] => none
  | 0, _ => none
  | Nat.succ n, c :: cs =>
    if startsWithChars sep (c :: cs) then
      some ([], List.drop (sep.length - 1) cs)
    else
      match breakOnAux sep n cs with
      | some (pre, post) => some (c :: pre, post)
      | none => none

def breakOn (sep s : String) : Option (String × String) :=
  match breakOnAux sep.data s.data.length s.data with
  | some (pre, post) => some (⟨pre⟩, ⟨post⟩)
  | none => none

/-- The first two fields of Python `tok.split(sep)`: `parts[0]` is the
text before the first occurrence and `parts[1]` the text between the
first and second occurrences (or the rest, with a single occurrence);
`none` when the separator does not occur (so `parts[1]` would raise
IndexError — unreachable in the source, which checks `sep in tok`). -/
def splitTwo (sep tok : String) : Option (String × String) :=
  match breakOn sep tok with
  | none => none
  | some (k, rest) =>
    match breakOn sep rest with
    | none => some (k, rest)
    | some (p1, _) => some (k, p1)

/-- `SELECT COUNT/SUM ...` statistics (bot.py lines 288-300). -/
def statsOf (db : DB) : Out :=
  .stats db.volunteers.length
    (db.volunteers.foldl (fun a v => a + v.lateness_count) 0)
    (db.volunteers.foldl (fun a v => a + v.warnings_count) 0)
    ((db.volunteers.filter (fun v => v.status == "Blacklisted")).length)

/-- Is `pat` a contiguous sublist of `s`? -/
def containsChars (pat : List Char) : List Char → Bool
  | [] => pat == []
  | c :: cs => startsWithChars pat (c :: cs) || containsChars pat cs

/-- Case-insensitive substring test, modelling
`full_name ILIKE '%q%' OR contacts ILIKE '%q%'` (bot.py line 446);
case-folding is ASCII. -/
def iLikeContains (pat s : String) : Bool :=
  containsChars (pat.data.map Char.toLower) (s.data.map Char.toLower)

/-- `f"UPDATE volunteers SET {field}=$1 WHERE id=$2"` (bot.py line 436):
the field name is interpolated, unchecked, into the statement, so any
column name of the `volunteers` table can be targeted. The TEXT columns
take the bound value as-is; for the INT columns or an unknown name the
statement fails to bind/parse and no row changes. -/
def rawUpdate (field value : String) (vid : Int) (db : DB) : DB :=
  if field = "full_name" then
    { db with volunteers :=
        (updateWhere vid (fun v => { v with full_name := value }) db.volunteers) }
  else if field = "contacts" then
    { db with volunteers :=
        (updateWhere vid (fun v => { v with contacts := value }) db.volunteers) }
  else if field = "status" then
    { db with volunteers :=
        (updateWhere vid (fun v => { v with status := value }) db.volunteers) }
  else db

/-- The `callbacks` handler (bot.py lines 255-331): an if/elif chain on
the callback token. Branches that only render don't touch the session;
menu branches entering a flow `set_state` (scratch kept); the delete
confirmation branches act and `clear()`; `edit_field_*` stores the
token's suffix as the field name. A token matching no branch falls off
the chain: nothing happens. -/
def callbacks (tok : String) (s : Session) (db : DB) :
    Session × DB × List Out :=
  if tok = "menu_volunteers" then
    (s, db, [.volunteersView (show_records db.volunteers 0)])
  else if tok = "menu_lateness" then
    ({ s with st := .awaitingLatenessId }, db, [.askLatenessId])
  else if tok = "menu_warning" then
    ({ s with st := .awaitingWarningId }, db, [.askWarningId])
  else if tok = "menu_blacklist" then
    (s, db, [.blacklistView (show_records db.blacklist 0)])
  else if tok = "menu_blacklist_direct" then
    ({ s with st := .awaitingBlacklistId }, db, [.askBlacklistId])
  else if tok = "menu_add_volunteer" then
    ({ s with st := .awaitingAddName }, db, [.askName])
  else if tok = "menu_edit_volunteer" then
    ({ s with st := .awaitingEditId }, db, [.askEditId])
  else if tok = "menu_manage" then
    (s, db, [.manageMenu])
  else if tok = "menu_statistics" then
    (s, db, [statsOf db])
  else if tok = "menu_search" then
    ({ s with st := .awaitingSearchQuery }, db, [.askSearch])
  else if tok = "menu_delete_volunteer" then
    ({ s with st := .awaitingDeleteId }, db, [.askDeleteId])
  else if tok = "menu_back" then
    (s, db, [.mainMenu])
  else if tok = "confirm_delete_yes" then
    (idleSession,
     { db with volunteers := deleteMatching s.data.volunteer_id db.volunteers },
     [.deletedMsg])
  else if tok = "confirm_delete_no" then
    (idleSession, db, [.deleteCancelled])
  else if startsWithChars "edit_field_".data tok.data then
    let field := removeAll "edit_field_" tok
    ({ st := .awaitingEditValue, data := { s.data with field := some field } },
     db, [.askNewValue field])
  else
    (s, db, [])

/-- The `paginate_records` handler body (bot.py lines 336-349): return
unless the token contains `"_page_"`; otherwise split on it, take the
list kind and the page number, and re-render that page. `int(parts[1])`
raising (non-numeric page) is an uncaught exception, modelled `none`;
an unknown list kind falls off the if/elif chain and renders nothing. -/
def paginate_records (tok : String) (db : DB) : Option (List Out) :=
  match splitTwo "_page_" tok with
  | some (k, p) =>
    match (pyInt p).map Int.toNat with
    | some n =>
      if k = "volunteers" then
        some [.volunteersView (show_records db.volunteers n)]
      else if k = "blacklist" then
        some [.blacklistView (show_records db.blacklist n)]
      else some []
    | none => none
  | none => none

/-- Dispatch of a callback update. bot.py registers `callbacks` (line
255) and `paginate_records` (line 335) on the dispatcher in that order,
both with `@dp.callback_query()` and no filter. Under aiogram 3 the
update goes to the first registered handler whose filters pass and
propagation then stops; a handler with no filters passes on every
update, so `callbacks` consumes every callback update and
`paginate_records` is never reached. -/
def dispatchCallback (tok : String) (s : Session) (db : DB) :
    Session × DB × List Out :=
  callbacks tok s db

/-- The `handle_messages` text handler (bot.py lines 354-479): an
if/elif chain on the current state. Each branch mirrors the source,
including the `try/except ValueError/finally` blocks: in the lateness
and warning flows the `finally` clause clears the state and shows the
main menu on success AND on parse failure; the blacklist, edit and
delete id prompts only answer "enter a number" on parse failure,
leaving state and scratch as they are. A state with no branch (idle,
awaiting the delete confirmation button) ignores the text. -/
def handle_messages (s : Session) (text : String) (db : DB) :
    Session × DB × List Out :=
  match s.st with
  | .awaitingLatenessId =>
    match pyInt text with
    | some vid =>
      let r := add_lateness vid db
      (idleSession, r.1, r.2 ++ [.mainMenu])
    | none => (idleSession, db, [.badNumber, .mainMenu])
  | .awaitingWarningId =>
    match pyInt text with
    | some vid =>
      let r := add_warning vid db
      (idleSession, r.1, r.2 ++ [.mainMenu])
    | none => (idleSession, db, [.badNumber, .mainMenu])
  | .awaitingBlacklistId =>
    match pyInt text with
    | some vid =>
      ({ st := .awaitingBlacklistReason,
         data := { s.data with volunteer_id := some vid } }, db, [.askReason])
    | none => (s, db, [.badNumber])
  | .awaitingBlacklistReason =>
    -- `data['volunteer_id']` (line 389): the key is always present when
    -- this state is reached; a missing key would raise KeyError in the
    -- source, so the `none` case is dead.
    match s.data.volunteer_id with
    | some vid =>
      let r := add_direct_blacklist vid text db
      (idleSession, r.1, r.2 ++ [.mainMenu])
    | none => (s, db, [])
  | .awaitingAddName =>
    ({ st := .awaitingAddContact,
       data := { s.data with full_name := some text } }, db, [.askPhone])
  | .awaitingAddContact =>
    -- `data.get("full_name")` (line 402): always set on this path; a
    -- `None` name would fail the NOT NULL insert, so the case is dead.
    match s.data.full_name with
    | some name =>
      let r := add_volunteer name text db
      (idleSession, r.1, r.2 ++ [.mainMenu])
    | none => (idleSession, db, [.mainMenu])
  | .awaitingEditId =>
    match pyInt text with
    | some vid =>
      ({ st := .awaitingEditField,
         data := { s.data with volunteer_id := some vid } }, db, [.chooseField])
    | none => (s, db, [.badNumber])
  | .awaitingEditValue =>
    -- `data['volunteer_id']` / `data['field']` (lines 432-433): present
    -- whenever this state is reached through the flow.
    match s.data.volunteer_id, s.data.field with
    | some vid, some field =>
      (idleSession, rawUpdate field text vid db,
       [.updated field text, .mainMenu])
    | _, _ => (s, db, [])
  | .awaitingSearchQuery =>
    let q := String.mk (trimChars text.data)
    let rows := db.volunteers.filter
      (fun v => iLikeContains q v.full_name || iLikeContains q v.contacts)
    (idleSession, db,
     [if rows.isEmpty then .noResults else .searchResults rows])
  | .awaitingDeleteId =>
    match pyInt text with
    | some vid =>
      match fetchVolunteer db vid with
      | none => (idleSession, db, [.notFoundDelete])
      | some row =>
        ({ st := .awaitingDeleteConfirm,
           data := { s.data with volunteer_id := some vid } }, db,
         [.confirmDelete row.full_name])
    | none => (s, db, [.badNumber])
  | _ => (s, db, [])

/-! ### Operation sequences over the store

For the reachability claims we close the ledger and maintenance
operations under sequential composition. `Op.edit` models completion of
the edit flow through the two fields the edit keyboard offers
(bot.py lines 417-424: `edit_field_full_name`, `edit_field_contacts`);
the handler's acceptance of other `edit_field_*` tokens is treated
separately via `rawUpdate`. -/

inductive EditField where
  | fullName
  | contacts
deriving DecidableEq, Repr

def editValue : EditField → String → Volunteer → Volunteer
  | .fullName, val, v => { v with full_name := val }
  | .contacts, val, v => { v with contacts := val }

/-- `DELETE FROM volunteers WHERE id = $1` with a concrete id
(bot.py line 318 on the confirmed-delete path). -/
def deleteVolunteer (vid : Int) (db : DB) : DB :=
  { db with volunteers := deleteMatching (some vid) db.volunteers }

/-- The core operations of the claims: add, record lateness, record
warning, manual blacklist, edit, delete. -/
inductive Op where
  | add (name contacts : String)
  | lateness (vid : Int)
  | warning (vid : Int)
  | manualBl (vid : Int) (reason : String)
  | edit (vid : Int) (f : EditField) (value : String)
  | del (vid : Int)
deriving DecidableEq, Repr

/-- Execution state for operation sequences: the store plus the ghost
history of volunteer ids to which a manual blacklist was successfully
applied (needed to state the blacklist invariant, which refers to
whether a manual blacklist "was applied"). -/
structure ExecState where
  db : DB
  manual : List Int
deriving DecidableEq, Repr

def applyOp (st : ExecState) (o : Op) : ExecState :=
  match o with
  | .add n c => { st with db := (add_volunteer n c st.db).1 }
  | .lateness v => { st with db := (add_lateness v st.db).1 }
  | .warning v => { st with db := (add_warning v st.db).1 }
  | .manualBl v r =>
    { db := (add_direct_blacklist v r st.db).1,
      manual := if (fetchVolunteer st.db v).isSome then v :: st.manual else st.manual }
  | .edit v f val =>
    { st with db :=
        { st.db with volunteers := updateWhere v (editValue f val) st.db.volunteers } }
  | .del v => { st with db := deleteVolunteer v st.db }

/-- Run a sequence of operations from the fresh store. -/
def execOps (ops : List Op) : ExecState :=
  ops.foldl applyOp { db := initDB, manual := [] }

/-! ### Interleaved ledger steps (for the concurrency claim)

Each SQL statement of the ledger runs in its own connection acquisition
with no enclosing transaction, so concurrent `add_lateness` calls can
interleave between the counter increment and the promotion check. A
call contributes two scheduler-atomic steps: its `UPDATE ... + 1`
statement and its `check_and_blacklist` body (treating the whole check
as atomic is generous to the source — even so the composite is not
serializable). -/

inductive LedgerStep where
  | incr (vid : Int)
  | check (vid : Int)
deriving DecidableEq, Repr

def runStep (st : DB × List Out) (p : LedgerStep) : DB × List Out :=
  match p with
  | .incr v => (incLateness v st.1, st.2)
  | .check v =>
    let r := check_and_blacklist v st.1
    (r.1, st.2 ++ r.2)

/-- Run a schedule of ledger steps, accumulating the emitted messages. -/
def runSteps (l : List LedgerStep) (db : DB) : DB × List Out :=
  l.foldl runStep (db, [])

/-- The step decomposition agrees with `add_lateness`: a serial call is
exactly its two steps in order. -/
theorem runSteps_single (vid : Int) (db : DB) :
    runSteps [.incr vid, .check vid] db = add_lateness vid db := by
  simp [runSteps, runStep, add_lateness]

/-! ### Helper lemmas -/

theorem ids_updateWhere (vid : Int) (f : Volunteer → Volunteer)
    (hf : ∀ x, (f x).id = x.id) (l : List Volunteer) :
    (updateWhere vid f l).map (fun v => v.id) = l.map (fun v => v.id) := by
  induction l with
  | nil => rfl
  | cons a t ih =>
    simp only [updateWhere, List.map_cons] at ih ⊢
    refine congrArg₂ _ ?_ ih
    by_cases h : a.id == vid
    · simp [h, hf]
    · simp [h]

theorem find?_updateWhere (vid : Int) (f : Volunteer → Volunteer)
    (hf : ∀ x, (f x).id = x.id) (l : List Volunteer) :
    (updateWhere vid f l).find? (fun v => v.id == vid) =
      ((l.find? (fun v => v.id == vid)).map f) := by
  induction l with
  | nil => rfl
  | cons a t ih =>
    by_cases h : a.id = vid
    · have h1 : updateWhere vid f (a :: t) = f a :: updateWhere vid f t := by
        simp [updateWhere, h]
      rw [h1, List.find?_cons_of_pos _ (by simp [hf, h]),
        List.find?_cons_of_pos _ (by simp [h])]
      rfl
    · have h1 : updateWhere vid f (a :: t) = a :: updateWhere vid f t := by
        simp [updateWhere, h]
      rw [h1, List.find?_cons_of_neg _ (by simp [h]),
        List.find?_cons_of_neg _ (by simp [h]), ih]

theorem fetchVolunteer_map (db : DB) (vid : Int) (f : Volunteer → Volunteer)
    (hf : ∀ x, (f x).id = x.id) :
    fetchVolunteer { db with volunteers := updateWhere vid f db.volunteers } vid =
      (fetchVolunteer db vid).map f :=
  find?_updateWhere vid f hf db.volunteers

theorem names_nodup_upsertBlacklist (name reason : String)
    (l : List BlacklistEntry)
    (h : (l.map (fun e => e.full_name)).Nodup) :
    ((upsertBlacklist name reason l).map (fun e => e.full_name)).Nodup := by
  unfold upsertBlacklist
  by_cases hc : l.any (fun e => e.full_name == name)
  · simp [hc, h]
  · have hnot : name ∉ l.map (fun e => e.full_name) := by
      intro hmem
      rcases List.mem_map.mp hmem with ⟨e, he, rfl⟩
      exact hc (List.any_eq_true.mpr ⟨e, he, beq_iff_eq.mpr rfl⟩)
    rw [if_neg (by simp [hc])]
    simp only [List.map_append, List.map_cons, List.map_nil]
    refine List.Nodup.append h (List.nodup_singleton _) ?_
    intro a ha hb
    rw [List.mem_singleton] at hb
    exact hnot (hb ▸ ha)

theorem mem_updateWhere {vid : Int} {f : Volunteer → Volunteer}
    {l : List Volunteer} {w : Volunteer} (hw : w ∈ updateWhere vid f l) :
    ∃ u ∈ l, (u.id = vid ∧ w = f u) ∨ (u.id ≠ vid ∧ w = u) := by
  rcases List.mem_map.mp hw with ⟨u, hu, hgu⟩
  refine ⟨u, hu, ?_⟩
  by_cases h : u.id = vid
  · exact Or.inl ⟨h, by rw [← hgu]; simp [h]⟩
  · exact Or.inr ⟨h, by rw [← hgu]; simp [h]⟩

theorem updateWhere_mem_of {vid : Int} {f : Volunteer → Volunteer}
    {l : List Volunteer} {u : Volunteer} (hu : u ∈ l) (h : u.id = vid) :
    f u ∈ updateWhere vid f l := by
  have hm := List.mem_map_of_mem
    (fun v => if v.id == vid then f v else v) hu
  simpa [updateWhere, h] using hm

theorem fetch_eq_of_nodup {l : List Volunteer}
    (hnd : (l.map (fun v => v.id)).Nodup) {u : Volunteer} (hu : u ∈ l)
    {vid : Int} (hv : u.id = vid) :
    l.find? (fun v => v.id == vid) = some u := by
  cases hrow : l.find? (fun v => v.id == vid) with
  | none =>
    have := List.find?_eq_none.mp hrow u hu
    simp [hv] at this
  | some r =>
    have hrmem := List.mem_of_find?_eq_some hrow
    have hrid : r.id = vid := by simpa using List.find?_some hrow
    have : r = u := List.inj_on_of_nodup_map hnd hrmem hu (by rw [hrid, hv])
    rw [this]

/-! ### The blacklist-status invariant (claim C1) -/

/-- The spec's invariant, relative to the ghost manual-blacklist
history: a volunteer is Blacklisted exactly when its violations reach 3
or a manual blacklist was applied to it. -/
def StatusInv (st : ExecState) : Prop :=
  ∀ v ∈ st.db.volunteers,
    (v.status = "Blacklisted" ↔
      3 ≤ v.lateness_count + v.warnings_count ∨ v.id ∈ st.manual)

/-- Well-formedness of reachable execution states: volunteer ids are
pairwise distinct and below the SERIAL counter, the manual history only
mentions ids the counter has handed out, and the status invariant
holds. -/
def Wf (st : ExecState) : Prop :=
  (st.db.volunteers.map (fun v => v.id)).Nodup ∧
  (∀ v ∈ st.db.volunteers, v.id < st.db.nextId) ∧
  (∀ i ∈ st.manual, i < st.db.nextId) ∧
  StatusInv st

theorem wf_init : Wf { db := initDB, manual := [] } := by
  refine ⟨by simp [initDB], by simp [initDB], by simp, ?_⟩
  intro v hv
  simp [initDB] at hv

theorem mem_updateWhere_id {vid : Int} {f : Volunteer → Volunteer}
    (hf : ∀ x, (f x).id = x.id) {l : List Volunteer} {w : Volunteer}
    (hw : w ∈ updateWhere vid f l) : ∃ u ∈ l, w.id = u.id := by
  rcases mem_updateWhere hw with ⟨u, hu, ⟨_, he⟩ | ⟨_, he⟩⟩
  · exact ⟨u, hu, by rw [he, hf]⟩
  · exact ⟨u, hu, by rw [he]⟩

/-- A violation recording — counter bump on one id, then the promotion
check — preserves well-formedness, for any bump that keeps the id and
status and does not decrease the violation total (both counter
increments qualify). -/
theorem wf_viol_step (st : ExecState) (h : Wf st) (vid : Int)
    (bump : Volunteer → Volunteer)
    (hid : ∀ x, (bump x).id = x.id)
    (hst : ∀ x, (bump x).status = x.status)
    (hmono : ∀ x, x.lateness_count + x.warnings_count ≤
      (bump x).lateness_count + (bump x).warnings_count) :
    Wf { st with db :=
      (check_and_blacklist vid
        { st.db with volunteers := updateWhere vid bump st.db.volunteers }).1 } := by
  obtain ⟨hnd, hbound, hman, hinv⟩ := h
  set l1 : List Volunteer := updateWhere vid bump st.db.volunteers with hl1
  have hids1 : l1.map (fun v => v.id) = st.db.volunteers.map (fun v => v.id) :=
    ids_updateWhere vid bump hid st.db.volunteers
  have hnd1 : (l1.map (fun v => v.id)).Nodup := by rw [hids1]; exact hnd
  cases hrow : fetchVolunteer { st.db with volunteers := l1 } vid with
  | none =>
    have hnomem : ∀ x ∈ l1, ¬ (x.id == vid) = true := List.find?_eq_none.mp hrow
    have hres : (check_and_blacklist vid { st.db with volunteers := l1 }).1 =
        { st.db with volunteers := l1 } := by
      simp [check_and_blacklist, hrow]
    rw [hres]
    refine ⟨hnd1, ?_, hman, ?_⟩
    · intro w hw
      rcases mem_updateWhere_id hid hw with ⟨u, hu, he⟩
      rw [he]; exact hbound u hu
    · intro w hw
      rcases mem_updateWhere hw with ⟨u, hu, ⟨huv, he⟩ | ⟨_, he⟩⟩
      · subst he
        exact absurd (beq_iff_eq.mpr ((hid u).trans huv))
          (hnomem _ (updateWhere_mem_of hu huv))
      · subst he
        exact hinv _ hu
  | some row =>
    by_cases hcond : 3 ≤ row.lateness_count + row.warnings_count ∧
        row.status ≠ "Blacklisted"
    · have hres : (check_and_blacklist vid { st.db with volunteers := l1 }).1 =
          { volunteers :=
              (updateWhere vid (fun v => { v with status := "Blacklisted" }) l1),
            blacklist := (upsertBlacklist row.full_name
              (reasonText (row.lateness_count + row.warnings_count))
              st.db.blacklist),
            nextId := st.db.nextId } := by
        simp only [check_and_blacklist, hrow]
        rw [if_pos hcond]
        simp [setStatus]
      rw [hres]
      have hsf : ∀ x : Volunteer,
          (({ x with status := "Blacklisted" } : Volunteer)).id = x.id :=
        fun _ => rfl
      refine ⟨?_, ?_, hman, ?_⟩
      · show ((updateWhere vid (fun v => { v with status := "Blacklisted" }) l1).map
          (fun v => v.id)).Nodup
        rw [ids_updateWhere vid (fun v => { v with status := "Blacklisted" }) hsf l1]
        exact hnd1
      · intro w hw
        rcases mem_updateWhere_id hsf hw with ⟨u1, hu1, he1⟩
        rcases mem_updateWhere_id hid hu1 with ⟨u, hu, he⟩
        rw [he1, he]; exact hbound u hu
      · intro w hw
        rcases mem_updateWhere hw with ⟨u1, hu1, hcase1⟩
        rcases mem_updateWhere hu1 with ⟨u, hu, ⟨hv, he⟩ | ⟨hv, he⟩⟩
        · subst he
          rcases hcase1 with ⟨hv1, he1⟩ | ⟨hv1, he1⟩
          · subst he1
            have hrowbump : row = bump u := by
              have hfind := fetch_eq_of_nodup hnd1
                (updateWhere_mem_of hu hv) ((hid u).trans hv)
              have hsome : some row = some (bump u) := by
                rw [← hfind]; exact hrow.symm
              exact Option.some.inj hsome
            refine iff_of_true rfl (Or.inl ?_)
            have h3 := hcond.1
            rw [hrowbump] at h3
            exact h3
          · exact absurd ((hid u).trans hv) hv1
        · subst he
          rcases hcase1 with ⟨hv1, he1⟩ | ⟨hv1, he1⟩
          · exact absurd hv1 hv
          · subst he1
            exact hinv _ hu
    · have hres : (check_and_blacklist vid { st.db with volunteers := l1 }).1 =
          { st.db with volunteers := l1 } := by
        simp only [check_and_blacklist, hrow]
        rw [if_neg hcond]
      rw [hres]
      refine ⟨hnd1, ?_, hman, ?_⟩
      · intro w hw
        rcases mem_updateWhere_id hid hw with ⟨u, hu, he⟩
        rw [he]; exact hbound u hu
      · intro w hw
        rcases mem_updateWhere hw with ⟨u, hu, ⟨hv, he⟩ | ⟨_, he⟩⟩
        · subst he
          have hrowbump : row = bump u := by
            have hfind := fetch_eq_of_nodup hnd1
              (updateWhere_mem_of hu hv) ((hid u).trans hv)
            have hsome : some row = some (bump u) := by
              rw [← hfind]; exact hrow.symm
            exact Option.some.inj hsome
          have hsb : (bump u).status = u.status := hst u
          rcases Decidable.not_and_iff_or_not.mp hcond with h3 | hbl
          · have hlt : (bump u).lateness_count + (bump u).warnings_count < 3 := by
              have hlt' := lt_of_not_le h3
              rwa [hrowbump] at hlt'
            by_cases hubl : u.status = "Blacklisted"
            · refine iff_of_true (hsb.trans hubl) ?_
              rcases (hinv u hu).mp hubl with hge | hm
              · exact Or.inl (le_trans hge (hmono u))
              · rw [hid u]; exact Or.inr hm
            · refine iff_of_false (fun hc => hubl (hsb ▸ hc)) ?_
              rintro (hge | hm)
              · exact absurd hge (not_le_of_lt hlt)
              · rw [hid u] at hm
                exact hubl ((hinv u hu).mpr (Or.inr hm))
          · have hubl : u.status = "Blacklisted" := by
              have hnn := Decidable.not_not.mp hbl
              rw [hrowbump, hsb] at hnn
              exact hnn
            refine iff_of_true (hsb.trans hubl) ?_
            rcases (hinv u hu).mp hubl with hge | hm
            · exact Or.inl (le_trans hge (hmono u))
            · rw [hid u]; exact Or.inr hm
        · subst he
          exact hinv _ hu

/-- Every core operation preserves well-formedness. -/
theorem wf_applyOp (st : ExecState) (h : Wf st) (o : Op) :
    Wf (applyOp st o) := by
  cases o with
  | add n c =>
    show Wf { st with db := (add_volunteer n c st.db).1 }
    unfold add_volunteer
    by_cases hd : st.db.volunteers.any
        (fun v => v.full_name == n && v.contacts == c)
    · rw [if_pos hd]
      exact h
    · rw [if_neg hd]
      obtain ⟨hnd, hbound, hman, hinv⟩ := h
      refine ⟨?_, ?_, ?_, ?_⟩
      · rw [List.map_append]
        refine List.Nodup.append hnd (List.nodup_singleton _) ?_
        intro a ha hb
        rw [List.map_singleton, List.mem_singleton] at hb
        subst hb
        rcases List.mem_map.mp ha with ⟨v, hv, hvid⟩
        exact absurd (hvid ▸ hbound v hv) (lt_irrefl _)
      · intro v hv
        rcases List.mem_append.mp hv with h1 | h1
        · exact lt_trans (hbound v h1) (lt_add_one _)
        · rw [List.mem_singleton] at h1
          subst h1
          exact lt_add_one _
      · intro i hi
        exact lt_trans (hman i hi) (lt_add_one _)
      · intro v hv
        rcases List.mem_append.mp hv with h1 | h1
        · exact hinv v h1
        · rw [List.mem_singleton] at h1
          subst h1
          refine iff_of_false
            (fun hc =>
              absurd (show ("Active" : String) = "Blacklisted" from hc)
                (by decide)) ?_
          rintro (hge | hm)
          · exact absurd (show (3:Nat) ≤ 0 + 0 from hge) (by decide)
          · exact absurd (hman _ hm) (lt_irrefl _)
  | lateness v =>
    exact wf_viol_step st h v
      (fun x => { x with lateness_count := x.lateness_count + 1 })
      (fun _ => rfl) (fun _ => rfl)
      (fun x => by
        show x.lateness_count + x.warnings_count ≤
          x.lateness_count + 1 + x.warnings_count
        omega)
  | warning v =>
    exact wf_viol_step st h v
      (fun x => { x with warnings_count := x.warnings_count + 1 })
      (fun _ => rfl) (fun _ => rfl)
      (fun x => by
        show x.lateness_count + x.warnings_count ≤
          x.lateness_count + (x.warnings_count + 1)
        omega)
  | manualBl v r =>
    cases hrow : fetchVolunteer st.db v with
    | none =>
      have heq : applyOp st (.manualBl v r) = st := by
        simp [applyOp, add_direct_blacklist, hrow]
      rw [heq]
      exact h
    | some row =>
      obtain ⟨hnd, hbound, hman, hinv⟩ := h
      have hrowmem : row ∈ st.db.volunteers := List.mem_of_find?_eq_some hrow
      have hrowid : row.id = v := by simpa using List.find?_some hrow
      have heq : applyOp st (.manualBl v r) =
          { db :=
              ({ volunteers :=
                  (updateWhere v (fun x => { x with status := "Blacklisted" })
                    st.db.volunteers),
                 blacklist := (upsertBlacklist row.full_name r st.db.blacklist),
                 nextId := st.db.nextId }),
            manual := (v :: st.manual) } := by
        simp [applyOp, add_direct_blacklist, hrow, setStatus]
      rw [heq]
      have hsf : ∀ x : Volunteer,
          (({ x with status := "Blacklisted" } : Volunteer)).id = x.id :=
        fun _ => rfl
      refine ⟨?_, ?_, ?_, ?_⟩
      · show ((updateWhere v (fun x => { x with status := "Blacklisted" })
            st.db.volunteers).map (fun x => x.id)).Nodup
        rw [ids_updateWhere v (fun x => { x with status := "Blacklisted" })
          hsf st.db.volunteers]
        exact hnd
      · intro w hw
        rcases mem_updateWhere_id hsf hw with ⟨u, hu, he⟩
        rw [he]
        exact hbound u hu
      · intro i hi
        rcases List.mem_cons.mp hi with h1 | h1
        · subst h1
          exact hrowid ▸ hbound row hrowmem
        · exact hman i h1
      · intro w hw
        rcases mem_updateWhere hw with ⟨u, hu, ⟨hv, he⟩ | ⟨hv, he⟩⟩
        · subst he
          exact iff_of_true rfl (Or.inr (hv ▸ List.mem_cons_self _ _))
        · subst he
          have hmem : (w.id ∈ v :: st.manual) ↔ w.id ∈ st.manual := by
            simp [List.mem_cons, hv]
          exact (hinv _ hu).trans (or_congr Iff.rfl hmem.symm)
  | edit v f val =>
    obtain ⟨hnd, hbound, hman, hinv⟩ := h
    have hid : ∀ x, (editValue f val x).id = x.id := by
      intro x; cases f <;> rfl
    have hstv : ∀ x, (editValue f val x).status = x.status := by
      intro x; cases f <;> rfl
    have hlc : ∀ x, (editValue f val x).lateness_count = x.lateness_count := by
      intro x; cases f <;> rfl
    have hwc : ∀ x, (editValue f val x).warnings_count = x.warnings_count := by
      intro x; cases f <;> rfl
    refine ⟨?_, ?_, hman, ?_⟩
    · show ((updateWhere v (editValue f val) st.db.volunteers).map
        (fun x => x.id)).Nodup
      rw [ids_updateWhere v (editValue f val) hid st.db.volunteers]
      exact hnd
    · intro w hw
      rcases mem_updateWhere_id hid hw with ⟨u, hu, he⟩
      rw [he]
      exact hbound u hu
    · intro w hw
      rcases mem_updateWhere hw with ⟨u, hu, ⟨_, he⟩ | ⟨_, he⟩⟩
      · subst he
        rw [hstv u, hlc u, hwc u, hid u]
        exact hinv u hu
      · subst he
        exact hinv _ hu
  | del v =>
    obtain ⟨hnd, hbound, hman, hinv⟩ := h
    refine ⟨?_, ?_, hman, ?_⟩
    · show (((st.db.volunteers.filter
        (fun x => !(some x.id == some v))).map (fun x => x.id))).Nodup
      exact List.Nodup.sublist
        ((List.filter_sublist st.db.volunteers).map (fun x => x.id)) hnd
    · intro w hw
      exact hbound w (List.mem_of_mem_filter hw)
    · intro w hw
      exact hinv w (List.mem_of_mem_filter hw)

/-- Every sequence of core operations leads to a well-formed state. -/
theorem wf_execOps (ops : List Op) : Wf (execOps ops) := by
  have hgen : ∀ (l : List Op) (st : ExecState), Wf st → Wf (l.foldl applyOp st) := by
    intro l
    induction l with
    | nil => exact fun st h => h
    | cons o t ih => exact fun st h => ih _ (wf_applyOp st h o)
  exact hgen ops _ wf_init

/-- C1: For every volunteer record reachable by any sequence of the core
operations (add, record_lateness, record_warning, apply_manual_blacklist,
edit, delete), status = Blacklisted holds if and only if
lateness_count + warnings_count ≥ 3 or a manual blacklist was applied to
that volunteer. -/
theorem C1_blacklist_status_invariant (ops : List Op) (v : Volunteer)
    (hv : v ∈ (execOps ops).db.volunteers) :
    v.status = "Blacklisted" ↔
      3 ≤ v.lateness_count + v.warnings_count ∨ v.id ∈ (execOps ops).manual :=
  (wf_execOps ops).2.2.2 v hv

/-- Witness for C1: after add then lateness, warning, lateness on id 1,
the stored volunteer is Blacklisted with totals 2 + 1. -/
theorem C1_blacklist_status_invariant_witness :
    ((⟨1, "Ann", "c", "Blacklisted", 2, 1⟩ : Volunteer) ∈
      (execOps [.add "Ann" "c", .lateness 1, .warning 1,
        .lateness 1]).db.volunteers) ∧
    ((⟨1, "Ann", "c", "Blacklisted", 2, 1⟩ : Volunteer).status = "Blacklisted" ↔
      3 ≤ 2 + 1 ∨ (1 : Int) ∈
        (execOps [.add "Ann" "c", .lateness 1, .warning 1,
          .lateness 1]).manual) :=
  ⟨by decide, C1_blacklist_status_invariant _ _ (by decide)⟩

/-! ### The promotion check after a counter increment (claim C2) -/

/-- The reason string asserted by the spec for automatic promotion.
Modelled from the spec's words (`"<total> violations
(lateness+warnings)"`) for comparison with the reason the source
actually stores. -/
def specReasonText (total : Nat) : String :=
  toString total ++ " violations (lateness+warnings)"

theorem add_lateness_existing (vid : Int) (db : DB) (v : Volunteer)
    (hv : fetchVolunteer db vid = some v) :
    fetchVolunteer (add_lateness vid db).1 vid =
      some ({ v with
        lateness_count := v.lateness_count + 1
        status :=
          (if 3 ≤ v.lateness_count + 1 + v.warnings_count ∧
              v.status ≠ "Blacklisted" then "Blacklisted" else v.status) }) ∧
    (if 3 ≤ v.lateness_count + 1 + v.warnings_count ∧
        v.status ≠ "Blacklisted" then
      (add_lateness vid db).1.blacklist =
        upsertBlacklist v.full_name
          (reasonText (v.lateness_count + 1 + v.warnings_count))
          db.blacklist ∧
      (add_lateness vid db).2 =
        [.promoted v.full_name (v.lateness_count + 1 + v.warnings_count)]
    else
      (add_lateness vid db).1.blacklist = db.blacklist ∧
      (add_lateness vid db).2 =
        [.recorded v.full_name (v.lateness_count + 1) v.warnings_count
          (v.lateness_count + 1 + v.warnings_count)]) := by
  have h1 : fetchVolunteer (incLateness vid db) vid =
      some ({ v with lateness_count := v.lateness_count + 1 }) := by
    have hm := fetchVolunteer_map db vid
      (fun x => { x with lateness_count := x.lateness_count + 1 })
      (fun _ => rfl)
    rw [hv] at hm
    exact hm
  by_cases hc : 3 ≤ v.lateness_count + 1 + v.warnings_count ∧
      v.status ≠ "Blacklisted"
  · have h2 : fetchVolunteer
        (setStatus vid "Blacklisted" (incLateness vid db)) vid =
        some ({ v with
          lateness_count := v.lateness_count + 1
          status := "Blacklisted" }) := by
      have hm := fetchVolunteer_map (incLateness vid db) vid
        (fun x => { x with status := "Blacklisted" })
        (fun _ => rfl)
      rw [h1] at hm
      exact hm
    refine ⟨?_, ?_⟩
    · rw [if_pos hc]
      show fetchVolunteer (check_and_blacklist vid (incLateness vid db)).1 vid = _
      simp only [check_and_blacklist, h1]
      rw [if_pos hc]
      exact h2
    · rw [if_pos hc]
      refine ⟨?_, ?_⟩
      · show (check_and_blacklist vid (incLateness vid db)).1.blacklist = _
        simp only [check_and_blacklist, h1]
        rw [if_pos hc]
        rfl
      · show (check_and_blacklist vid (incLateness vid db)).2 = _
        simp only [check_and_blacklist, h1]
        rw [if_pos hc]
  · refine ⟨?_, ?_⟩
    · rw [if_neg hc]
      show fetchVolunteer (check_and_blacklist vid (incLateness vid db)).1 vid = _
      simp only [check_and_blacklist, h1]
      rw [if_neg hc]
      exact h1
    · rw [if_neg hc]
      refine ⟨?_, ?_⟩
      · show (check_and_blacklist vid (incLateness vid db)).1.blacklist = _
        simp only [check_and_blacklist, h1]
        rw [if_neg hc]
        rfl
      · show (check_and_blacklist vid (incLateness vid db)).2 = _
        simp only [check_and_blacklist, h1]
        rw [if_neg hc]

theorem add_warning_existing (vid : Int) (db : DB) (v : Volunteer)
    (hv : fetchVolunteer db vid = some v) :
    fetchVolunteer (add_warning vid db).1 vid =
      some ({ v with
        warnings_count := v.warnings_count + 1
        status :=
          (if 3 ≤ v.lateness_count + (v.warnings_count + 1) ∧
              v.status ≠ "Blacklisted" then "Blacklisted" else v.status) }) ∧
    (if 3 ≤ v.lateness_count + (v.warnings_count + 1) ∧
        v.status ≠ "Blacklisted" then
      (add_warning vid db).1.blacklist =
        upsertBlacklist v.full_name
          (reasonText (v.lateness_count + (v.warnings_count + 1)))
          db.blacklist ∧
      (add_warning vid db).2 =
        [.promoted v.full_name (v.lateness_count + (v.warnings_count + 1))]
    else
      (add_warning vid db).1.blacklist = db.blacklist ∧
      (add_warning vid db).2 =
        [.recorded v.full_name v.lateness_count (v.warnings_count + 1)
          (v.lateness_count + (v.warnings_count + 1))]) := by
  have h1 : fetchVolunteer (incWarnings vid db) vid =
      some ({ v with warnings_count := v.warnings_count + 1 }) := by
    have hm := fetchVolunteer_map db vid
      (fun x => { x with warnings_count := x.warnings_count + 1 })
      (fun _ => rfl)
    rw [hv] at hm
    exact hm
  by_cases hc : 3 ≤ v.lateness_count + (v.warnings_count + 1) ∧
      v.status ≠ "Blacklisted"
  · have h2 : fetchVolunteer
        (setStatus vid "Blacklisted" (incWarnings vid db)) vid =
        some ({ v with
          warnings_count := v.warnings_count + 1
          status := "Blacklisted" }) := by
      have hm := fetchVolunteer_map (incWarnings vid db) vid
        (fun x => { x with status := "Blacklisted" })
        (fun _ => rfl)
      rw [h1] at hm
      exact hm
    refine ⟨?_, ?_⟩
    · rw [if_pos hc]
      show fetchVolunteer (check_and_blacklist vid (incWarnings vid db)).1 vid = _
      simp only [check_and_blacklist, h1]
      rw [if_pos hc]
      exact h2
    · rw [if_pos hc]
      refine ⟨?_, ?_⟩
      · show (check_and_blacklist vid (incWarnings vid db)).1.blacklist = _
        simp only [check_and_blacklist, h1]
        rw [if_pos hc]
        rfl
      · show (check_and_blacklist vid (incWarnings vid db)).2 = _
        simp only [check_and_blacklist, h1]
        rw [if_pos hc]
  · refine ⟨?_, ?_⟩
    · rw [if_neg hc]
      show fetchVolunteer (check_and_blacklist vid (incWarnings vid db)).1 vid = _
      simp only [check_and_blacklist, h1]
      rw [if_neg hc]
      exact h1
    · rw [if_neg hc]
      refine ⟨?_, ?_⟩
      · show (check_and_blacklist vid (incWarnings vid db)).1.blacklist = _
        simp only [check_and_blacklist, h1]
        rw [if_neg hc]
        rfl
      · show (check_and_blacklist vid (incWarnings vid db)).2 = _
        simp only [check_and_blacklist, h1]
        rw [if_neg hc]

/-- Test fixture: one Active volunteer with two prior latenesses. -/
def dbTwoLate : DB :=
  { volunteers := [⟨1, "Ann", "c", "Active", 2, 0⟩],
    blacklist := [], nextId := 2 }

/-- Test fixture: one Active volunteer with one prior lateness. -/
def dbOneLate : DB :=
  { volunteers := [⟨1, "Ann", "c", "Active", 1, 0⟩],
    blacklist := [], nextId := 2 }

/-- Test fixture: one fresh Active volunteer. -/
def dbFresh : DB :=
  { volunteers := [⟨1, "Ann", "c", "Active", 0, 0⟩],
    blacklist := [], nextId := 2 }

/-- C2 (amended): after record_lateness / record_warning increments the
corresponding counter of an existing volunteer, the promotion check runs
on the updated counters: if the new total reaches 3 and the volunteer is
not Blacklisted, the status is set to Blacklisted and a BlacklistEntry
for the volunteer's full_name is upserted with reason
"<total> нарушений (опоздания + замечания)"; otherwise the status and
the blacklist table are left unchanged. -/
theorem C2_promotion_check (vid : Int) (db : DB) (v : Volunteer)
    (hv : fetchVolunteer db vid = some v) :
    (fetchVolunteer (add_lateness vid db).1 vid =
      some ({ v with
        lateness_count := v.lateness_count + 1
        status :=
          (if 3 ≤ v.lateness_count + 1 + v.warnings_count ∧
              v.status ≠ "Blacklisted" then "Blacklisted" else v.status) }) ∧
    (if 3 ≤ v.lateness_count + 1 + v.warnings_count ∧
        v.status ≠ "Blacklisted" then
      (add_lateness vid db).1.blacklist =
        upsertBlacklist v.full_name
          (reasonText (v.lateness_count + 1 + v.warnings_count))
          db.blacklist ∧
      (add_lateness vid db).2 =
        [.promoted v.full_name (v.lateness_count + 1 + v.warnings_count)]
    else
      (add_lateness vid db).1.blacklist = db.blacklist ∧
      (add_lateness vid db).2 =
        [.recorded v.full_name (v.lateness_count + 1) v.warnings_count
          (v.lateness_count + 1 + v.warnings_count)])) ∧
    (fetchVolunteer (add_warning vid db).1 vid =
      some ({ v with
        warnings_count := v.warnings_count + 1
        status :=
          (if 3 ≤ v.lateness_count + (v.warnings_count + 1) ∧
              v.status ≠ "Blacklisted" then "Blacklisted" else v.status) }) ∧
    (if 3 ≤ v.lateness_count + (v.warnings_count + 1) ∧
        v.status ≠ "Blacklisted" then
      (add_warning vid db).1.blacklist =
        upsertBlacklist v.full_name
          (reasonText (v.lateness_count + (v.warnings_count + 1)))
          db.blacklist ∧
      (add_warning vid db).2 =
        [.promoted v.full_name (v.lateness_count + (v.warnings_count + 1))]
    else
      (add_warning vid db).1.blacklist = db.blacklist ∧
      (add_warning vid db).2 =
        [.recorded v.full_name v.lateness_count (v.warnings_count + 1)
          (v.lateness_count + (v.warnings_count + 1))])) :=
  ⟨add_lateness_existing vid db v hv, add_warning_existing vid db v hv⟩

/-- Witness for C2 at a concrete store: the third lateness of volunteer
1 promotes it. -/
theorem C2_promotion_check_witness :
    fetchVolunteer dbTwoLate 1 = some ⟨1, "Ann", "c", "Active", 2, 0⟩ ∧
    fetchVolunteer (add_lateness 1 dbTwoLate).1 1 =
      some ⟨1, "Ann", "c", "Blacklisted", 3, 0⟩ := by
  have h := (C2_promotion_check 1 dbTwoLate ⟨1, "Ann", "c", "Active", 2, 0⟩
    (by decide)).1.1
  refine ⟨by decide, ?_⟩
  rw [h]
  decide

/-- Counterexample for C2 as stated: the reason stored by the source at
a concrete promotion is `"3 нарушений (опоздания + замечания)"`; no
stored entry carries the reason `"3 violations (lateness+warnings)"`
that the claim asserts. -/
theorem C2_reason_counterexample :
    (add_lateness 1 dbTwoLate).1.blacklist = [⟨"Ann", reasonText 3⟩] ∧
    ∀ e ∈ (add_lateness 1 dbTwoLate).1.blacklist,
      e.reason ≠ specReasonText 3 := by
  decide

/-- C6: apply_manual_blacklist on an existing volunteer always sets
status = Blacklisted; if no BlacklistEntry exists for that volunteer's
full_name one is created with exactly the supplied reason, and if one
already exists no duplicate row is created and the existing entry's
reason is not overwritten; on an unknown id it reports not-found and
changes nothing. -/
theorem C6_manual_blacklist (vid : Int) (reason : String) (db : DB) :
    (fetchVolunteer db vid = none →
      add_direct_blacklist vid reason db = (db, [.notFound])) ∧
    (∀ v, fetchVolunteer db vid = some v →
      fetchVolunteer (add_direct_blacklist vid reason db).1 vid =
        some ({ v with status := "Blacklisted" }) ∧
      (add_direct_blacklist vid reason db).2 =
        [.directBl v.full_name reason] ∧
      (db.blacklist.any (fun e => e.full_name == v.full_name) = false →
        (add_direct_blacklist vid reason db).1.blacklist =
          db.blacklist ++ [⟨v.full_name, reason⟩]) ∧
      (db.blacklist.any (fun e => e.full_name == v.full_name) = true →
        (add_direct_blacklist vid reason db).1.blacklist = db.blacklist)) := by
  refine ⟨?_, ?_⟩
  · intro h
    simp [add_direct_blacklist, h]
  · intro v h
    have hres1 : fetchVolunteer (add_direct_blacklist vid reason db).1 vid =
        some ({ v with status := "Blacklisted" }) := by
      simp only [add_direct_blacklist, h]
      have hm := fetchVolunteer_map db vid
        (fun x => { x with status := "Blacklisted" }) (fun _ => rfl)
      rw [h] at hm
      exact hm
    refine ⟨hres1, ?_, ?_, ?_⟩
    · simp [add_direct_blacklist, h]
    · intro hno
      show (add_direct_blacklist vid reason db).1.blacklist = _
      simp only [add_direct_blacklist, h]
      show upsertBlacklist v.full_name reason db.blacklist = _
      simp [upsertBlacklist, hno]
    · intro hyes
      show (add_direct_blacklist vid reason db).1.blacklist = _
      simp only [add_direct_blacklist, h]
      show upsertBlacklist v.full_name reason db.blacklist = _
      simp [upsertBlacklist, hyes]

/-- Witness for C6: manually blacklisting the fresh volunteer 1 with
reason "policy violation" sets its status and stores exactly that
reason. -/
theorem C6_manual_blacklist_witness :
    fetchVolunteer dbFresh 1 = some ⟨1, "Ann", "c", "Active", 0, 0⟩ ∧
    fetchVolunteer (add_direct_blacklist 1 "policy violation" dbFresh).1 1 =
      some ⟨1, "Ann", "c", "Blacklisted", 0, 0⟩ ∧
    (add_direct_blacklist 1 "policy violation" dbFresh).1.blacklist =
      [⟨"Ann", "policy violation"⟩] := by
  have h := (C6_manual_blacklist 1 "policy violation" dbFresh).2
    ⟨1, "Ann", "c", "Active", 0, 0⟩ (by decide)
  refine ⟨by decide, ?_, ?_⟩
  · rw [h.1]
  · rw [h.2.2.1 (by decide)]
    decide

/-! ### At most one blacklist entry per full_name (claim C8) -/

theorem names_nodup_check (vid : Int) (db : DB)
    (h : ((db.blacklist.map (fun e => e.full_name))).Nodup) :
    (((check_and_blacklist vid db).1.blacklist.map
      (fun e => e.full_name))).Nodup := by
  cases hrow : fetchVolunteer db vid with
  | none => simpa [check_and_blacklist, hrow] using h
  | some row =>
    by_cases hc : 3 ≤ row.lateness_count + row.warnings_count ∧
        row.status ≠ "Blacklisted"
    · have hres : (check_and_blacklist vid db).1.blacklist =
          upsertBlacklist row.full_name
            (reasonText (row.lateness_count + row.warnings_count))
            db.blacklist := by
        simp only [check_and_blacklist, hrow]
        rw [if_pos hc]
        rfl
      rw [hres]
      exact names_nodup_upsertBlacklist _ _ _ h
    · have hres : (check_and_blacklist vid db).1.blacklist = db.blacklist := by
        simp only [check_and_blacklist, hrow]
        rw [if_neg hc]
      rw [hres]
      exact h

theorem names_nodup_applyOp (st : ExecState) (o : Op)
    (h : ((st.db.blacklist.map (fun e => e.full_name))).Nodup) :
    (((applyOp st o).db.blacklist.map (fun e => e.full_name))).Nodup := by
  cases o with
  | add n c =>
    show (((add_volunteer n c st.db).1.blacklist.map
      (fun e => e.full_name))).Nodup
    unfold add_volunteer
    by_cases hd : st.db.volunteers.any
        (fun v => v.full_name == n && v.contacts == c)
    · rw [if_pos hd]; exact h
    · rw [if_neg hd]; exact h
  | lateness v => exact names_nodup_check v _ h
  | warning v => exact names_nodup_check v _ h
  | manualBl v r =>
    show (((add_direct_blacklist v r st.db).1.blacklist.map
      (fun e => e.full_name))).Nodup
    cases hrow : fetchVolunteer st.db v with
    | none => simpa [add_direct_blacklist, hrow] using h
    | some row =>
      have hres : (add_direct_blacklist v r st.db).1.blacklist =
          upsertBlacklist row.full_name r st.db.blacklist := by
        simp [add_direct_blacklist, hrow, setStatus]
      rw [hres]
      exact names_nodup_upsertBlacklist _ _ _ h
  | edit v f val => exact h
  | del v => exact h

/-- In a list whose images under `f` are pairwise distinct, at most one
element maps to any given value. -/
theorem length_filter_le_one_of_nodup_map {α β : Type} [DecidableEq β]
    (f : α → β) (l : List α) (h : (l.map f).Nodup) (b : β) :
    (l.filter (fun a => f a == b)).length ≤ 1 := by
  induction l with
  | nil => simp
  | cons a t ih =>
    simp only [List.map_cons, List.nodup_cons] at h
    by_cases hab : f a = b
    · have ht : t.filter (fun x => f x == b) = [] := by
        rw [List.filter_eq_nil_iff]
        intro x hx
        simp only [beq_iff_eq]
        intro hxb
        exact h.1 (List.mem_map.mpr ⟨x, hx, by rw [hxb, hab]⟩)
      simp [List.filter_cons, hab, ht]
    · simp only [List.filter_cons, beq_iff_eq, hab]
      simpa using ih h.2

/-- C8: across every sequence of record_lateness and record_warning
calls, at most one BlacklistEntry row exists for any full_name, provided
the starting blacklist satisfies the UNIQUE(full_name) constraint. -/
theorem C8_at_most_one_entry (db : DB) (ops : List Op)
    (_hops : ∀ o ∈ ops,
      (∃ v, o = Op.lateness v) ∨ (∃ v, o = Op.warning v))
    (hdb : ((db.blacklist.map (fun e => e.full_name))).Nodup)
    (name : String) :
    (((ops.foldl applyOp { db := db, manual := [] }).db.blacklist.filter
      (fun e => e.full_name == name)).length) ≤ 1 := by
  have hgen : ∀ (l : List Op) (st : ExecState),
      ((st.db.blacklist.map (fun e => e.full_name))).Nodup →
      (((l.foldl applyOp st).db.blacklist.map
        (fun e => e.full_name))).Nodup := by
    intro l
    induction l with
    | nil => exact fun st h => h
    | cons o t ih => exact fun st h => ih _ (names_nodup_applyOp st o h)
  exact length_filter_le_one_of_nodup_map _ _
    (hgen ops { db := db, manual := [] } hdb) name

/-- Witness for C8: two further latenesses on a volunteer with one prior
lateness promote it exactly once. -/
theorem C8_at_most_one_entry_witness :
    (∀ o ∈ ([Op.lateness 1, Op.lateness 1, Op.lateness 1] : List Op),
      (∃ v, o = Op.lateness v) ∨ (∃ v, o = Op.warning v)) ∧
    (((dbOneLate.blacklist.map (fun e => e.full_name))).Nodup) ∧
    ((([Op.lateness 1, Op.lateness 1, Op.lateness 1].foldl applyOp
      { db := dbOneLate, manual := [] }).db.blacklist.filter
        (fun e => e.full_name == "Ann")).length) ≤ 1 :=
  by
  have ha : ∀ o ∈ ([Op.lateness 1, Op.lateness 1, Op.lateness 1] : List Op),
      (∃ v, o = Op.lateness v) ∨ (∃ v, o = Op.warning v) := by
    intro o ho
    simp only [List.mem_cons, List.not_mem_nil, or_false] at ho
    rcases ho with h | h | h <;> exact Or.inl ⟨1, h⟩
  exact ⟨ha, by decide,
    C8_at_most_one_entry dbOneLate [Op.lateness 1, Op.lateness 1, Op.lateness 1]
      ha (by decide) "Ann"⟩

/-- C7: for a non-empty record list and a page index below
totalPages = ceil(count/5), the rendered page holds exactly the records
at positions [p*5, p*5+5), the "previous" control is present iff p > 0
and the "next" control iff p < totalPages - 1; the empty list renders
the distinct empty view with no pagination controls. -/
theorem C7_pagination {α : Type} (rows : List α) (p : Nat) :
    (show_records ([] : List α) p = PageView.emptyList) ∧
    (rows ≠ [] → p < totalPages rows.length →
      ∃ l hasPrev hasNext,
        show_records rows p = PageView.page l hasPrev hasNext ∧
        (hasPrev = true ↔ 0 < p) ∧
        (hasNext = true ↔ p < totalPages rows.length - 1) ∧
        l.length = min PAGE_SIZE (rows.length - p * PAGE_SIZE) ∧
        (∀ i, i < l.length → l[i]? = rows[p * PAGE_SIZE + i]?)) := by
  refine ⟨by simp [show_records], ?_⟩
  intro hne _hp
  have hne' : rows.isEmpty = false := by
    cases rows with
    | nil => exact absurd rfl hne
    | cons a t => rfl
  refine ⟨(rows.drop (p * PAGE_SIZE)).take PAGE_SIZE, decide (0 < p),
    decide (p < totalPages rows.length - 1), ?_, ?_, ?_, ?_, ?_⟩
  · simp [show_records, hne']
  · exact decide_eq_true_iff
  · exact decide_eq_true_iff
  · simp [List.length_take, List.length_drop]
  · intro i hi
    rw [List.length_take, List.length_drop] at hi
    rw [List.getElem?_take_of_lt (lt_of_lt_of_le hi (min_le_left _ _)),
      List.getElem?_drop]

/-- Witness for C7: twelve records at page size 5; page 2 is the last
page, of size 2, with a "previous" control and no "next" control. -/
theorem C7_pagination_witness :
    ((List.range 12 : List Nat) ≠ [] ∧
      2 < totalPages (List.range 12).length) ∧
    (∃ l hasPrev hasNext,
      show_records (List.range 12) 2 = PageView.page l hasPrev hasNext ∧
      (hasPrev = true ↔ 0 < 2) ∧
      (hasNext = true ↔ 2 < totalPages (List.range 12).length - 1) ∧
      l.length = min PAGE_SIZE ((List.range 12).length - 2 * PAGE_SIZE) ∧
      (∀ i, i < l.length → l[i]? = (List.range 12)[2 * PAGE_SIZE + i]?)) :=
  ⟨⟨by decide, by decide⟩,
   (C7_pagination (List.range 12) 2).2 (by decide) (by decide)⟩

/-! ### Router behaviour at concrete inputs (claims C3, C4, C5, C10) -/

/-- Test fixture: six volunteers, so the volunteer list has two pages. -/
def dbSix : DB :=
  { volunteers :=
      [⟨1, "A", "a", "Active", 0, 0⟩, ⟨2, "B", "b", "Active", 0, 0⟩,
       ⟨3, "C", "c", "Active", 0, 0⟩, ⟨4, "D", "d", "Active", 0, 0⟩,
       ⟨5, "E", "e", "Active", 0, 0⟩, ⟨6, "F", "f", "Active", 0, 0⟩],
    blacklist := [], nextId := 7 }

/-- C3 (behaviour of the source at the failing input): on text "abc",
which does not parse as an integer, the lateness and warning id prompts
clear the session to Idle (their `finally` block runs `state.clear()`),
while the blacklist, edit and delete id prompts re-prompt in place. The
claim asserts that all five states stay in place; the first two
conjuncts exhibit the violation. -/
theorem C3_invalid_id_behaviour :
    handle_messages ⟨.awaitingLatenessId, emptyScratch⟩ "abc" dbFresh =
      (idleSession, dbFresh, [.badNumber, .mainMenu]) ∧
    handle_messages ⟨.awaitingWarningId, emptyScratch⟩ "abc" dbFresh =
      (idleSession, dbFresh, [.badNumber, .mainMenu]) ∧
    handle_messages ⟨.awaitingBlacklistId, emptyScratch⟩ "abc" dbFresh =
      (⟨.awaitingBlacklistId, emptyScratch⟩, dbFresh, [.badNumber]) ∧
    handle_messages ⟨.awaitingEditId, emptyScratch⟩ "abc" dbFresh =
      (⟨.awaitingEditId, emptyScratch⟩, dbFresh, [.badNumber]) ∧
    handle_messages ⟨.awaitingDeleteId, emptyScratch⟩ "abc" dbFresh =
      (⟨.awaitingDeleteId, emptyScratch⟩, dbFresh, [.badNumber]) := by
  decide

/-- C4 (behaviour of the source at the failing input): a pagination
token reaches the filterless `callbacks` handler first, matches none of
its branches, and is consumed with no render; the `paginate_records`
handler, which would have re-rendered page 1, is never reached. -/
theorem C4_pagination_token_dead :
    dispatchCallback "volunteers_page_1" idleSession dbSix =
      (idleSession, dbSix, []) ∧
    paginate_records "volunteers_page_1" dbSix =
      some [.volunteersView
        (PageView.page [⟨6, "F", "f", "Active", 0, 0⟩] true false)] := by
  decide

/-- C5 (behaviour of the source at the failing input): the callback
token "edit_field_status" stores the field name "status" — outside the
allow-list {full_name, contacts} — in the session, and completing the
edit flow forwards it into the interpolated UPDATE statement, changing
the volunteer's status column to the supplied text. -/
theorem C5_field_injection :
    ("status" ∉ (["full_name", "contacts"] : List String)) ∧
    (callbacks "edit_field_status"
        ⟨.awaitingEditField,
          { volunteer_id := some 1, field := none, full_name := none }⟩
        dbFresh).1 =
      ⟨.awaitingEditValue,
        { volunteer_id := some 1, field := some "status",
          full_name := none }⟩ ∧
    fetchVolunteer
      (handle_messages
        ⟨.awaitingEditValue,
          { volunteer_id := some 1, field := some "status",
            full_name := none }⟩
        "Hacked" dbFresh).2.1 1 =
      some ⟨1, "Ann", "c", "Hacked", 0, 0⟩ := by
  decide

/-- C10: a "confirm_delete_yes" callback is accepted in every
conversation state; it deletes exactly the volunteer whose id is in the
session's volunteer_id scratch key, deletes nothing when the key is
absent, and always clears the session to Idle. -/
theorem C10_confirm_delete_any_state (st : ConvState) (d : Scratch)
    (db : DB) :
    callbacks "confirm_delete_yes" ⟨st, d⟩ db =
      (idleSession,
       { db with volunteers := deleteMatching d.volunteer_id db.volunteers },
       [.deletedMsg]) ∧
    (∀ v, v ∈ deleteMatching d.volunteer_id db.volunteers ↔
      (v ∈ db.volunteers ∧ some v.id ≠ d.volunteer_id)) ∧
    (d.volunteer_id = none →
      deleteMatching d.volunteer_id db.volunteers = db.volunteers) := by
  refine ⟨by simp [callbacks], ?_, ?_⟩
  · intro v
    simp [deleteMatching, List.mem_filter]
  · intro h
    rw [h]
    simp [deleteMatching]

/-- Witness for C10: deleting with the volunteer_id stored by the edit
flow removes volunteer 1 from the fixture store. -/
theorem C10_confirm_delete_any_state_witness :
    callbacks "confirm_delete_yes"
      ⟨.awaitingEditValue,
        { volunteer_id := some 1, field := some "full_name",
          full_name := none }⟩ dbFresh =
      (idleSession,
       { dbFresh with
          volunteers := (deleteMatching (some 1) dbFresh.volunteers) },
       [.deletedMsg]) ∧
    deleteMatching (some 1) dbFresh.volunteers = [] :=
  ⟨(C10_confirm_delete_any_state .awaitingEditValue
      { volunteer_id := some 1, field := some "full_name",
        full_name := none } dbFresh).1,
   by decide⟩

/-! ### Concurrent lateness recording (claim C9) -/

/-- `find?` by one id through an update on a possibly different id. -/
theorem find?_updateWhere_gen (w vid : Int) (f : Volunteer → Volunteer)
    (hf : ∀ x, (f x).id = x.id) (l : List Volunteer) :
    (updateWhere w f l).find? (fun v => v.id == vid) =
      ((l.find? (fun v => v.id == vid)).map
        (fun x => if x.id == w then f x else x)) := by
  induction l with
  | nil => rfl
  | cons a t ih =>
    have hga : (if a.id == w then f a else a).id = a.id := by
      by_cases h : a.id == w <;> simp [h, hf]
    have h1 : updateWhere w f (a :: t) =
        (if a.id == w then f a else a) :: updateWhere w f t := rfl
    by_cases h : a.id = vid
    · rw [h1, List.find?_cons_of_pos _ (by simp only [hga]; simp [h]),
        List.find?_cons_of_pos _ (by simp [h])]
      rfl
    · rw [h1, List.find?_cons_of_neg _ (by simp only [hga]; simp [h]),
        List.find?_cons_of_neg _ (by simp [h]), ih]

/-- The lateness counter stored for an id, as an observation. -/
def latenessOf (db : DB) (vid : Int) : Option Nat :=
  (fetchVolunteer db vid).map (fun v => v.lateness_count)

theorem fetch_incLateness (db : DB) (w vid : Int) :
    fetchVolunteer (incLateness w db) vid =
      ((fetchVolunteer db vid).map
        (fun x => if x.id == w then
          { x with lateness_count := x.lateness_count + 1 } else x)) :=
  find?_updateWhere_gen w vid
    (fun x => { x with lateness_count := x.lateness_count + 1 })
    (fun _ => rfl) db.volunteers

theorem fetch_setStatus (db : DB) (w vid : Int) (st : String) :
    fetchVolunteer (setStatus w st db) vid =
      ((fetchVolunteer db vid).map
        (fun x => if x.id == w then { x with status := st } else x)) :=
  find?_updateWhere_gen w vid (fun x => { x with status := st })
    (fun _ => rfl) db.volunteers

/-- One scheduler-atomic ledger step changes the stored lateness
counter of `vid` exactly when it is the increment on `vid`. -/
theorem latenessOf_runStep (p : DB × List Out) (s : LedgerStep)
    (vid : Int) :
    latenessOf (runStep p s).1 vid =
      if s = .incr vid then (latenessOf p.1 vid).map (fun n => n + 1)
      else latenessOf p.1 vid := by
  cases s with
  | incr w =>
    by_cases hw : w = vid
    · subst hw
      rw [if_pos rfl]
      show latenessOf (incLateness w p.1) w = _
      unfold latenessOf
      rw [fetch_incLateness]
      cases hx : fetchVolunteer p.1 w with
      | none => rfl
      | some x =>
        have hxid : x.id = w := by simpa using List.find?_some hx
        simp [hxid]
    · rw [if_neg (by simp [hw])]
      show latenessOf (incLateness w p.1) vid = _
      unfold latenessOf
      rw [fetch_incLateness]
      cases hx : fetchVolunteer p.1 vid with
      | none => rfl
      | some x =>
        have hxid : x.id = vid := by simpa using List.find?_some hx
        have hxw : ¬ x.id = w := by
          rw [hxid]
          exact fun hh => hw hh.symm
        simp [hxw]
  | check w =>
    rw [if_neg (by simp)]
    show latenessOf (check_and_blacklist w p.1).1 vid = _
    cases hrow : fetchVolunteer p.1 w with
    | none => simp [check_and_blacklist, hrow]
    | some row =>
      by_cases hc : 3 ≤ row.lateness_count + row.warnings_count ∧
          row.status ≠ "Blacklisted"
      · have hres : (check_and_blacklist w p.1).1.volunteers =
            (setStatus w "Blacklisted" p.1).volunteers := by
          simp only [check_and_blacklist, hrow]
          rw [if_pos hc]
        unfold latenessOf
        have hfe : fetchVolunteer (check_and_blacklist w p.1).1 vid =
            fetchVolunteer (setStatus w "Blacklisted" p.1) vid := by
          unfold fetchVolunteer
          rw [hres]
        rw [hfe, fetch_setStatus]
        cases hx : fetchVolunteer p.1 vid with
        | none => rfl
        | some x =>
          by_cases hxw : x.id = w <;> simp [hxw]
      · have hres : (check_and_blacklist w p.1).1 = p.1 := by
          simp only [check_and_blacklist, hrow]
          rw [if_neg hc]
        rw [hres]

/-- Lateness counters over a whole schedule: each stored counter grows
by exactly the number of increment steps on its id, whatever the
interleaving. -/
theorem latenessOf_runSteps (steps : List LedgerStep) (db : DB)
    (vid : Int) :
    latenessOf (runSteps steps db).1 vid =
      ((latenessOf db vid).map
        (fun n => n + steps.count (LedgerStep.incr vid))) := by
  have hgen : ∀ (l : List LedgerStep) (p : DB × List Out),
      latenessOf (l.foldl runStep p).1 vid =
        ((latenessOf p.1 vid).map
          (fun n => n + l.count (LedgerStep.incr vid))) := by
    intro l
    induction l with
    | nil =>
      intro p
      cases h : latenessOf p.1 vid <;> simp [h]
    | cons s t ih =>
      intro p
      rw [List.foldl_cons, ih (runStep p s), latenessOf_runStep]
      by_cases hs : s = LedgerStep.incr vid
      · subst hs
        rw [if_pos rfl]
        cases h : latenessOf p.1 vid with
        | none => simp
        | some n =>
          simp only [h, Option.map_some, Option.some.injEq,
            List.count_cons]
          simp
          omega
      · rw [if_neg hs]
        cases h : latenessOf p.1 vid with
        | none => simp
        | some n =>
          simp only [h, Option.map_some, Option.some.injEq,
            List.count_cons]
          simp [hs]
  exact hgen steps (db, [])

/-- C9 (amended): any schedule of the scheduler-atomic steps of N
concurrent record_lateness calls on the same existing volunteer id —
each call contributing one counter-increment statement and one
promotion-check block — increases that volunteer's stored
lateness_count by exactly N, because the increment is a single atomic
UPDATE; the composite read-increment-evaluate-write sequence itself is
not atomic (see the counterexample). -/
theorem C9_concurrent_lateness (N : Nat) (vid : Int) (db : DB)
    (v : Volunteer) (hv : fetchVolunteer db vid = some v)
    (sched : List LedgerStep)
    (hs : sched.Perm (List.replicate N (LedgerStep.incr vid) ++
      List.replicate N (LedgerStep.check vid))) :
    latenessOf (runSteps sched db).1 vid = some (v.lateness_count + N) := by
  have hcount : sched.count (LedgerStep.incr vid) = N := by
    rw [hs.count_eq]
    simp [List.count_append, List.count_replicate]
  have hbase : latenessOf db vid = some v.lateness_count := by
    rw [latenessOf, hv]
    rfl
  rw [latenessOf_runSteps, hcount, hbase]
  rfl

/-- Witness for C9: two concurrent calls on volunteer 1 under the
interleaved schedule increment ... check ... increment ... check. -/
theorem C9_concurrent_lateness_witness :
    fetchVolunteer dbOneLate 1 = some ⟨1, "Ann", "c", "Active", 1, 0⟩ ∧
    ([LedgerStep.incr 1, LedgerStep.check 1, LedgerStep.incr 1,
      LedgerStep.check 1] : List LedgerStep).Perm
      (List.replicate 2 (LedgerStep.incr 1) ++
        List.replicate 2 (LedgerStep.check 1)) ∧
    latenessOf (runSteps [LedgerStep.incr 1, LedgerStep.check 1,
      LedgerStep.incr 1, LedgerStep.check 1] dbOneLate).1 1 =
      some (1 + 2) :=
  ⟨by decide, by decide,
   C9_concurrent_lateness 2 1 dbOneLate ⟨1, "Ann", "c", "Active", 1, 0⟩
     (by decide) _ (by decide)⟩

/-- Counterexample for C9 as stated: the read-increment-evaluate-write
sequence is not one atomic unit. The schedule incr, incr, check, check
is an interleaving of the two calls' steps (a permutation of their
step multiset that keeps each call's increment before its check), yet
its observable message trace — both calls announcing a promotion —
differs from the serial execution's trace, where the first call only
records a violation; the final stores coincide. -/
theorem C9_not_atomic_counterexample :
    ([LedgerStep.incr 1, LedgerStep.incr 1, LedgerStep.check 1,
      LedgerStep.check 1] : List LedgerStep).Perm
      (List.replicate 2 (LedgerStep.incr 1) ++
        List.replicate 2 (LedgerStep.check 1)) ∧
    (runSteps [LedgerStep.incr 1, LedgerStep.check 1, LedgerStep.incr 1,
      LedgerStep.check 1] dbOneLate).2 =
      [Out.recorded "Ann" 2 0 2, Out.promoted "Ann" 3] ∧
    (runSteps [LedgerStep.incr 1, LedgerStep.incr 1, LedgerStep.check 1,
      LedgerStep.check 1] dbOneLate).2 =
      [Out.promoted "Ann" 3, Out.recorded "Ann" 3 0 3] ∧
    (runSteps [LedgerStep.incr 1, LedgerStep.incr 1, LedgerStep.check 1,
      LedgerStep.check 1] dbOneLate).2 ≠
      (runSteps [LedgerStep.incr 1, LedgerStep.check 1, LedgerStep.incr 1,
        LedgerStep.check 1] dbOneLate).2 ∧
    (runSteps [LedgerStep.incr 1, LedgerStep.incr 1, LedgerStep.check 1,
      LedgerStep.check 1] dbOneLate).1 =
      (runSteps [LedgerStep.incr 1, LedgerStep.check 1, LedgerStep.incr 1,
        LedgerStep.check 1] dbOneLate).1 := by
  decide

end JutBot
